import Mathlib

/-!
Verification of the VideoLingo subtitle segmentation / timeline pipeline.

Shallow embedding of the Python sources:
  - `core/utils/ask_gpt.py`        (`ask_gpt`, validation, retry)
  - `core/translate_lines.py`      (`valid_translate_result`, `retry_translation`, `translate_lines`)
  - `core/_8_1_audio_task.py`      (`batch_trim_subtitles`, `process_srt`)
  - `core/_3_2_split_meaning.py`   (time-window interpolation in `parallel_split_sentences`)
  - `core/_5_split_sub.py`         (`calc_len`, `split_align_subs`)
  - `core/spacy_utils/split_by_comma.py` (`split_by_comma`)
  - `core/_11_merge_audio.py`      (`merge_audio_segments`)

Modelling conventions: Python floats are modelled as `ℚ` (the constants involved,
such as 1.75 and millisecond quantities, are exactly representable); the external
text-completion service is an explicit oracle `String → Except PyErr α` mapping a
prompt to either an exception or a parsed JSON response; JSON dictionaries keyed
by decimal-string ids are modelled with `ℕ` keys.
-/

/-- Python exceptions relevant to the embedded code paths. -/
inductive PyErr where
  /-- the `ValueError` raised inside `ask_gpt` when `valid_def` rejects the response -/
  | apiResponseError
  /-- any exception escaping the network call itself -/
  | requestError
  /-- `AttributeError`: calling `.replace`/`.strip` on a non-string JSON value -/
  | attrError
  /-- the `ValueError` raised at the end of `retry_translation` after 3 attempts -/
  | after3Retries
  /-- the `ValueError` raised at the end of `translate_lines` on a length mismatch -/
  | lengthMismatch
deriving DecidableEq

/-- A JSON value as far as the validated fields are concerned: `null`, a string,
or anything else (numbers, arrays, objects), which the string methods reject. -/
inductive JsonVal where
  | null
  | str (s : String)
  | other
deriving DecidableEq

/-- Python `" " * n`, the whitespace perturbation appended to prompts. -/
def spaces (n : Nat) : String := String.mk (List.replicate n ' ')

/-- Whitespace strip on a character list (Python `str.strip()`). -/
def stripChars (l : List Char) : List Char :=
  ((l.dropWhile Char.isWhitespace).reverse.dropWhile Char.isWhitespace).reverse

/-- Python `str.strip()`: leading/trailing whitespace removal. -/
def pyStrip (s : String) : String := String.mk (stripChars s.toList)

/-- Python `text.replace('\n', ' ')`: the pattern is a single character, so the
replacement is a character map. -/
def replaceNewlineSpace (s : String) : String :=
  String.mk (s.toList.map fun c => if c = '\n' then ' ' else c)

/-- One attempt of `ask_gpt` (`core/utils/ask_gpt.py` lines 87-143): issue the
request through the oracle, parse, then apply `valid_def`; an invalid response is
logged and re-raised as `ValueError` ("API response error"). -/
def askGptOnce {α : Type} (llm : String → Except PyErr α) (prompt : String)
    (validDef : α → Bool) : Except PyErr α :=
  match llm prompt with
  | .error e => .error e
  | .ok resp => if validDef resp then .ok resp else .error .apiResponseError

/-- Modelled from the spec: the `except_handler` decorator lives in
`core/utils/decorator.py`, which is not among the provided sources; only its use
`@except_handler("GPT request failed", retry=5)` on `ask_gpt` is visible.
Per the spec (§5: "exhausting an internal retry budget ... raises a terminal
error scoped to the failing chunk/batch"), it re-invokes the wrapped call on an
exception, up to `retry` additional times, and re-raises the final error once the
budget is exhausted. Attempts are indexed so distinct attempts may behave
differently; `ask_gpt` instantiates it with the same arguments each attempt. -/
def exceptHandlerAux {ε α : Type} (f : Nat → Except ε α) : Nat → Nat → Except ε α
  | attempt, 0 => f attempt
  | attempt, n + 1 =>
    match f attempt with
    | .ok a => .ok a
    | .error _ => exceptHandlerAux f (attempt + 1) n

/-- The `except_handler(..., retry := n)` wrapper applied to an attempt family. -/
def exceptHandler {ε α : Type} (retry : Nat) (f : Nat → Except ε α) : Except ε α :=
  exceptHandlerAux f 0 retry

/-- `ask_gpt` as called in this codebase: one validated attempt, wrapped in
`except_handler` with `retry = 5`; every attempt issues the same prompt. -/
def ask_gpt {α : Type} (llm : String → Except PyErr α) (prompt : String)
    (validDef : α → Bool) : Except PyErr α :=
  exceptHandler 5 (fun _ => askGptOnce llm prompt validDef)

/-- With a deterministic oracle all `except_handler` attempts coincide, so the
wrapper returns exactly the single-attempt result. -/
theorem exceptHandlerAux_const {ε α : Type} (x : Except ε α) :
    ∀ attempt n, exceptHandlerAux (fun _ => x) attempt n = x := by
  intro attempt n
  induction n generalizing attempt with
  | zero => rfl
  | succ n ih =>
    cases x with
    | ok a => simp [exceptHandlerAux]
    | error e => simpa [exceptHandlerAux] using ih (attempt + 1)

theorem ask_gpt_eq_once {α : Type} (llm : String → Except PyErr α) (prompt : String)
    (validDef : α → Bool) :
    ask_gpt llm prompt validDef = askGptOnce llm prompt validDef := by
  simpa [ask_gpt, exceptHandler] using
    exceptHandlerAux_const (askGptOnce llm prompt validDef) 0 5

/-! ## `batch_trim_subtitles` (`core/_8_1_audio_task.py` lines 18-41) -/

/-- One entry of the batch handed to `batch_trim_subtitles`. -/
structure TrimItem where
  id : Nat
  text : String
  duration : ℚ
deriving DecidableEq

/-- The fixed punctuation set of the regex `[,.!?;:，。！？；：]`. -/
def trimPunctChars : List Char :=
  [',', '.', '!', '?', ';', ':', '，', '。', '！', '？', '；', '：']

/-- Python `re.sub(r'[,.!?;:，。！？；：]', ' ', text)`: replace every character of
the punctuation set by a single space. -/
def replacePunctWithSpace (text : String) : String :=
  String.mk (text.toList.map fun c => if c ∈ trimPunctChars then ' ' else c)

/-- The deterministic fallback of `batch_trim_subtitles` (lines 38-41): map each
id (a decimal string key, modelled as `ℕ`) to `re.sub(punct, ' ', text).strip()`. -/
def trimFallback (batches : List TrimItem) : List (Nat × String) :=
  batches.map fun item => (item.id, pyStrip (replacePunctWithSpace item.text))

/-- `valid_batch_trim` (lines 27-31): every requested id must be present. -/
def validBatchTrim (batches : List TrimItem) (resp : List (Nat × String)) : Bool :=
  batches.all fun item => (resp.map Prod.fst).contains item.id

/-- `batch_trim_subtitles` (lines 18-41): empty batch short-circuits; otherwise
ask the oracle (prompt perturbed with `" " * retry_attempt`) and on any exception
fall back to punctuation stripping. -/
def batch_trim_subtitles (llm : String → Except PyErr (List (Nat × String)))
    (mkPrompt : List TrimItem → String) (batches : List TrimItem)
    (retryAttempt : Nat) : List (Nat × String) :=
  if batches = [] then []
  else
    match ask_gpt llm (mkPrompt batches ++ spaces retryAttempt) (validBatchTrim batches) with
    | .ok resp => resp
    | .error _ => trimFallback batches

/-! ## `split_by_comma` (`core/spacy_utils/split_by_comma.py` lines 6-17)

Text is modelled as `List Char` (Python indexes strings by code point). The spaCy
token stream is modelled by the comma characters themselves: a `','`/`'，'` in
running text is tokenized by spaCy as a standalone token whose `idx` is its
character offset. -/

/-- The condition of line 13: the token is a comma, `token.idx > 10`, and
`len(text) - token.idx > 10`. -/
def isSplitComma (text : List Char) (k : Nat) : Bool :=
  (text.get? k == some ',' || text.get? k == some '，')
    && decide (10 < k) && decide (10 < text.length - k)

/-- All comma offsets at which line 13 fires, in increasing order. -/
def commaPositions (text : List Char) : List Nat :=
  (List.range text.length).filter (isSplitComma text)

/-- The slicing loop of lines 12-16: each qualifying comma closes the current
part `text[last_idx : idx+1].strip()`; the remainder `text[last_idx:].strip()`
is appended at the end. -/
def cutParts (text : List Char) : Nat → List Nat → List (List Char)
  | last, [] => [stripChars (text.drop last)]
  | last, k :: ks =>
      stripChars ((text.drop last).take (k + 1 - last)) :: cutParts text (k + 1) ks

/-- `split_by_comma(text, nlp, max_length)`: short text is returned whole;
otherwise cut at every qualifying comma and drop empty parts (line 17). -/
def split_by_comma (text : List Char) (maxLength : Nat) : List (List Char) :=
  if text.length ≤ maxLength then [text]
  else (cutParts text 0 (commaPositions text)).filter (· ≠ [])

/-! ## Time-window interpolation (`core/_3_2_split_meaning.py` lines 174-187) -/

/-- Python `round` at integer precision: round half to even (banker's rounding). -/
def roundHalfEven (q : ℚ) : ℤ :=
  if q - ⌊q⌋ < 1 / 2 then ⌊q⌋
  else if 1 / 2 < q - ⌊q⌋ then ⌊q⌋ + 1
  else if ⌊q⌋ % 2 = 0 then ⌊q⌋ else ⌊q⌋ + 1

/-- Python `round(x, 3)` on the idealized rational value. -/
def pyRound3 (q : ℚ) : ℚ := (roundHalfEven (q * 1000) : ℚ) / 1000

/-- One output row of the split: text with its interpolated sub-window. -/
structure SRec where
  text : String
  start : ℚ
  stop : ℚ
  speaker_id : Option String
deriving DecidableEq

/-- `total_len = sum(len(line) for line in split_lines)` (line 175). -/
def totalCharLen (lines : List String) : Nat := (lines.map String.length).sum

/-- The `line_duration` of line 180: proportional to the line's character
count, or 0 when `total_len` is 0 (avoiding the division by zero). -/
def lineDur (totalLen : Nat) (duration : ℚ) (line : String) : ℚ :=
  if 0 < totalLen then ((line.length : ℚ) / (totalLen : ℚ)) * duration else 0

/-- The interpolation loop of lines 179-187: the emitted `start`/`end` are
`round(current_start, 3)` and `round(current_start + line_duration, 3)`;
`current_start` itself accumulates unrounded. -/
def interpWindows (totalLen : Nat) (duration : ℚ) (speaker : Option String) :
    ℚ → List String → List SRec
  | _, [] => []
  | currentStart, line :: rest =>
    { text := line
      start := pyRound3 currentStart
      stop := pyRound3 (currentStart + lineDur totalLen duration line)
      speaker_id := speaker }
      :: interpWindows totalLen duration speaker
          (currentStart + lineDur totalLen duration line) rest

/-- The whole sub-window assignment for one split sentence carrying the time
window `[startTime, endTime]` (lines 174-187). -/
def splitTimeWindows (splitLines : List String) (startTime endTime : ℚ)
    (speaker : Option String) : List SRec :=
  interpWindows (totalCharLen splitLines) (endTime - startTime) speaker startTime splitLines

/-! ## `calc_len` and `split_align_subs` (`core/_5_split_sub.py`) -/

/-- The per-script character weight of `calc_len` (lines 18-29); 1.75 = 7/4 and
1.5 = 3/2 exactly, also as Python floats. -/
def charWeight (c : Char) : ℚ :=
  let code := c.toNat
  if (0x4E00 ≤ code ∧ code ≤ 0x9FFF) ∨ (0x3040 ≤ code ∧ code ≤ 0x30FF) then 7 / 4
  else if (0xAC00 ≤ code ∧ code ≤ 0xD7A3) ∨ (0x1100 ≤ code ∧ code ≤ 0x11FF) then 3 / 2
  else if 0x0E00 ≤ code ∧ code ≤ 0x0E7F then 1
  else if 0xFF01 ≤ code ∧ code ≤ 0xFF5E then 7 / 4
  else 1

/-- `calc_len(text)` (lines 16-31): the sum of the character weights. -/
def calc_len (text : String) : ℚ := (text.toList.map charWeight).sum

/-- The flag condition of line 76: `len(src) > MAX_SUB_LENGTH or
calc_len(tr) * TARGET_SUB_MULTIPLIER > MAX_SUB_LENGTH`. -/
def needsSplit (maxSubLength : Nat) (targetMultiplier : ℚ) (src tr : String) : Bool :=
  decide (maxSubLength < src.length)
    || decide ((maxSubLength : ℚ) < calc_len tr * targetMultiplier)

/-- The `to_split` index list of lines 73-77 (iteration over `zip(src, tr)`). -/
def toSplit (maxSubLength : Nat) (targetMultiplier : ℚ)
    (srcLines trLines : List String) : List Nat :=
  (List.range (min srcLines.length trLines.length)).filter fun i =>
    needsSplit maxSubLength targetMultiplier (srcLines.getD i "") (trLines.getD i "")

/-- After the worker map of lines 85-101 a slot of `src_lines`/`tr_lines` holds
either its original string or a list of split parts. -/
inductive Cell where
  | str (s : String)
  | parts (l : List String)
deriving DecidableEq

/-- Flattening view of one slot (lines 108-116: `sublist if isinstance(sublist,
list) else [sublist]`). -/
def cellItems : Cell → List String
  | .str s => [s]
  | .parts l => l

/-- Slot-wise result of the worker map: a flagged index is transformed by `f`,
an unflagged one keeps its string. -/
def buildCells (flagged : List Nat) (f : Nat → String → Cell) :
    Nat → List String → List Cell
  | _, [] => []
  | i, s :: rest =>
      (if i ∈ flagged then f i s else Cell.str s) :: buildCells flagged f (i + 1) rest

/-- Flattened lines (lines 104-116). -/
def flattenCells (cells : List Cell) : List String := (cells.map cellItems).flatten

/-- Speaker ids carried per resulting sub-line (lines 111-112): index `i`
contributes `[speaker_ids[i]] * len(items)`. -/
def flattenSpeakers (cells : List Cell) (spk : List (Option String)) :
    List (Option String) :=
  ((cells.zip spk).map fun p => List.replicate (cellItems p.1).length p.2).flatten

/-- The outcome of `process(i)` (lines 86-98) for a flagged index, as an oracle:
`some (src_parts, tr_parts, tr_remerged)` when `split_sentence` + `align_subs`
succeed, `none` when the except-branch falls back to the original line. -/
def splitOracleSrcCell (oracle : Nat → Option (List String × List String × String)) :
    Nat → String → Cell := fun i s =>
  match oracle i with
  | some r => Cell.parts r.1
  | none => Cell.parts [s]

def splitOracleTrCell (oracle : Nat → Option (List String × List String × String)) :
    Nat → String → Cell := fun i t =>
  match oracle i with
  | some r => Cell.parts r.2.1
  | none => Cell.parts [t]

/-- Slot-wise `remerged_tr_lines` (starts as a copy of `tr_lines`; a successful
alignment stores the re-joined string, the except-branch of line 98 stores the
one-element list `[tr_lines[i]]`). -/
def splitOracleRemergedCell (oracle : Nat → Option (List String × List String × String)) :
    Nat → String → Cell := fun i t =>
  match oracle i with
  | some r => Cell.str r.2.2
  | none => Cell.parts [t]

/-- `split_align_subs(src_lines, tr_lines, speaker_ids)` (lines 67-118),
returning `(new_src_lines, new_tr_lines, remerged_tr_lines, new_speaker_ids)`.
`remerged_tr_lines` is returned unflattened, as in the source. Indexing
`speaker_ids[i]` is positional; the `zip` model agrees with the source whenever
`speaker_ids` is at least as long as `src_lines` (otherwise Python raises). -/
def split_align_subs (oracle : Nat → Option (List String × List String × String))
    (maxSubLength : Nat) (targetMultiplier : ℚ)
    (srcLines trLines : List String) (speakerIds : Option (List (Option String))) :
    List String × List String × List Cell × Option (List (Option String)) :=
  let flagged := toSplit maxSubLength targetMultiplier srcLines trLines
  let srcCells := buildCells flagged (splitOracleSrcCell oracle) 0 srcLines
  let trCells := buildCells flagged (splitOracleTrCell oracle) 0 trLines
  let remergedCells := buildCells flagged (splitOracleRemergedCell oracle) 0 trLines
  (flattenCells srcCells, flattenCells trCells, remergedCells,
    speakerIds.map (flattenSpeakers srcCells))

/-! ## `process_srt` (`core/_8_1_audio_task.py` lines 60-143)

Times of day are modelled as rational seconds; `time_diff_seconds(t1, t2)` is
`t2 - t1`. -/

/-- One parsed subtitle row of the merge loop. -/
structure SubEntry where
  number : Nat
  start_time : ℚ
  end_time : ℚ
  duration : ℚ
  text : String
  origin : String
  speaker_id : Option String
deriving DecidableEq

/-- The `same_speaker` test of line 113: `(pd.isna(a) and pd.isna(b)) or a == b`
(missing speakers, `None`/`NaN`, are `none`). -/
def sameSpeaker (a b : Option String) : Bool := (a.isNone && b.isNone) || a == b

/-- The merge of lines 122-127: texts joined by one space, end time and duration
taken from the pair, number kept from the first entry. -/
def mergeSubs (a b : SubEntry) : SubEntry :=
  { a with
    text := a.text ++ " " ++ b.text
    origin := a.origin ++ " " ++ b.origin
    end_time := b.end_time
    duration := b.end_time - a.start_time }

/-- The duration-floor extension of lines 130-133. -/
def extendSub (minDur : ℚ) (a : SubEntry) : SubEntry :=
  { a with end_time := a.start_time + minDur, duration := minDur }

/-- The `while i < len(df)` merge loop of lines 101-138. The `fuel` argument is
the loop variant `df.length - i`: every iteration either drops one row keeping
`i`, or advances `i` keeping the rows, so the variant strictly decreases; when it
reaches 0 the list is exhausted (`df[i]? = none`) and the loop exits, which is
what the fuel-0 branch returns. -/
def processSrtLoopF (minDur : ℚ) : Nat → List SubEntry → Nat → List SubEntry
  | 0, df, _ => df
  | fuel + 1, df, i =>
    match df[i]? with
    | none => df
    | some a =>
      if a.duration < minDur then
        match df[i + 1]? with
        | some b =>
          if b.start_time - a.start_time < minDur
              ∧ sameSpeaker a.speaker_id b.speaker_id = true then
            processSrtLoopF minDur fuel ((df.set i (mergeSubs a b)).eraseIdx (i + 1)) i
          else
            processSrtLoopF minDur fuel (df.set i (extendSub minDur a)) (i + 1)
        | none => processSrtLoopF minDur fuel df (i + 1)
      else processSrtLoopF minDur fuel df (i + 1)

/-- The merge loop entered at index `i`. -/
def processSrtLoop (minDur : ℚ) (df : List SubEntry) (i : Nat) : List SubEntry :=
  processSrtLoopF minDur (df.length - i) df i

/-- One subtitle row as parsed from the aligned table, before numbering. -/
structure SubRow where
  start_time : ℚ
  end_time : ℚ
  duration : ℚ
  text : String
  origin : String
  speaker_id : Option String
deriving DecidableEq

/-- The parse loop of lines 65-97: `number = i + 1` (1-based row position). -/
def mkSubs : Nat → List SubRow → List SubEntry
  | _, [] => []
  | i, r :: rest =>
      { number := i + 1
        start_time := r.start_time
        end_time := r.end_time
        duration := r.duration
        text := r.text
        origin := r.origin
        speaker_id := r.speaker_id } :: mkSubs (i + 1) rest

/-- `process_srt` restricted to its data transformation: parse rows with 1-based
numbers, then run the merge loop from index 0. -/
def process_srt (minDur : ℚ) (rows : List SubRow) : List SubEntry :=
  processSrtLoop minDur (mkSubs 0 rows) 0

/-! ## `merge_audio_segments` (`core/_11_merge_audio.py` lines 127-161)

Audio is abstracted by its length in milliseconds (pydub measures segments in
ms); a task's clip is `some d` (a decoded clip of `d` ms) or `none` (the file
does not exist, line 134's `continue`). -/

/-- The timeline fold of lines 133-159, carrying the previous entry's scheduled
end time (`new_sub_times[i-1][1]`; `none` for `i = 0`). Returns the total length
of `merged_audio` in milliseconds. Silence lengths pass through
`int(x * 1000)`, i.e. `⌊x * 1000⌋` for the positive values the guards admit. -/
def mergeAudioLoop : Option ℚ → List (Option ℚ × ℚ × ℚ) → ℚ
  | _, [] => 0
  | prevEnd, (clip, s, e) :: rest =>
    match clip with
    | none => mergeAudioLoop (some e) rest
    | some d =>
      let sil : ℚ :=
        match prevEnd with
        | none => if 0 < s then ((⌊s * 1000⌋ : ℤ) : ℚ) else 0
        | some pe => if 0 < s - pe then ((⌊(s - pe) * 1000⌋ : ℤ) : ℚ) else 0
      sil + d + mergeAudioLoop (some e) rest

/-- `merge_audio_segments(audios, new_sub_times, sample_rate)` as a duration
computation: total length (ms) of the assembled track. -/
def merge_audio_segments (clips : List (Option ℚ)) (newSubTimes : List (ℚ × ℚ)) : ℚ :=
  mergeAudioLoop none (clips.zip newSubTimes)

/-! ## `translate_lines` (`core/translate_lines.py`)

JSON responses are dictionaries keyed by decimal-string line ids; keys are
modelled as `ℕ` (the pipeline's ids), a dictionary as its key set plus a lookup
function. -/

/-- One value of the response dictionary: a JSON object whose fields `id`,
`origin`, `direct`, `free` may each be absent (`none`) or hold a JSON value.
The `id` field is itself an id, present or not. -/
structure TransItem where
  id : Option Nat
  origin : Option JsonVal
  direct : Option JsonVal
  free : Option JsonVal

/-- A parsed JSON response dictionary (unique keys, as in a Python dict). -/
structure RespDict where
  keys : Finset Nat
  get : Nat → TransItem

/-- The required sub-keys parameter of `valid_translate_result`
(`['direct']` for the faithful pass, `['free']` for the expressive pass). -/
inductive SubKey where
  | origin
  | direct
  | free
deriving DecidableEq

/-- Field lookup for a required sub-key. -/
def getSubKey : SubKey → TransItem → Option JsonVal
  | .origin, it => it.origin
  | .direct, it => it.direct
  | .free, it => it.free

/-- `valid_translate_result(result, expected_ids, required_sub_keys)`
(`core/translate_lines.py` lines 9-44): the key set must equal the expected id
set exactly; every item must carry an `id` field equal to its key and all the
required sub-keys. `success` is `true`. -/
def valid_translate_result (result : RespDict) (expectedIds : Finset Nat)
    (requiredSubKeys : List SubKey) : Bool :=
  decide (result.keys = expectedIds)
    && decide (∀ key ∈ result.keys,
        (result.get key).id = some key
          ∧ ∀ sk ∈ requiredSubKeys, (getSubKey sk (result.get key)).isSome = true)

/-- The `for retry in range(3)` loop of `retry_translation` (lines 63-77),
counting attempts done via the remaining-attempt count: attempt `retry` issues
`ask_gpt(prompt + retry * " ")`; an exception from `ask_gpt` propagates (the loop
body has no handler); a returned result is accepted iff its length equals
`line_count`, otherwise the next attempt runs; after 3 attempts the terminal
`ValueError` is raised. -/
def retryTranslationGo (llm : String → Except PyErr RespDict) (prompt : String)
    (validDef : RespDict → Bool) (lineCount : Nat) : Nat → Nat → Except PyErr RespDict
  | _, 0 => .error .after3Retries
  | retry, rem + 1 =>
    match ask_gpt llm (prompt ++ spaces retry) validDef with
    | .error e => .error e
    | .ok result =>
        if result.keys.card = lineCount then .ok result
        else retryTranslationGo llm prompt validDef lineCount (retry + 1) rem

/-- `retry_translation(prompt, step_name)` with its validator already selected. -/
def retry_translation (llm : String → Except PyErr RespDict) (prompt : String)
    (validDef : RespDict → Bool) (lineCount : Nat) : Except PyErr RespDict :=
  retryTranslationGo llm prompt validDef lineCount 0 3

/-- Whether an optional JSON field holds a string (so that Python may call
`.replace`/`.strip` on it without raising). -/
def isStrVal : Option JsonVal → Bool
  | some (.str _) => true
  | _ => false

/-- The string of a field known to hold one (after `normalizeDirects`). -/
def strValOr (v : Option JsonVal) : String :=
  match v with
  | some (.str s) => s
  | _ => ""

/-- The mutation loop of lines 83-84:
`faith_result[i]["direct"] = faith_result[i]["direct"].replace('\n', ' ')`.
If any `direct` value is not a string, Python raises `AttributeError` (the
validator only checked key presence); otherwise every `direct` is rewritten. -/
def normalizeDirects (r : RespDict) : Except PyErr RespDict :=
  if decide (∀ k ∈ r.keys, isStrVal (r.get k).direct = true) then
    .ok { keys := r.keys
          get := fun k =>
            let it := r.get k
            { it with
              direct :=
                match it.direct with
                | some (.str s) => some (.str (replaceNewlineSpace s))
                | o => o } }
  else .error .attrError

/-- One input row of `translate_lines` (`lines_with_ids`). -/
structure TransLine where
  id : Nat
  text : String
  speaker_id : Option String
  start : Option ℚ
  stop : Option ℚ
deriving DecidableEq

/-- One output row of `translate_lines`. The `translation` field keeps its JSON
type to record that the code always produces a (non-null) string there. -/
structure TransResult where
  id : Nat
  text : String
  translation : JsonVal
  speaker_id : Option String
  start : Option ℚ
  stop : Option ℚ

/-- The result assembly of lines 89-103 (faithful-only path): iterate the keys
in sorted order (decimal-string keys sorted numerically), look up the first
original row with that id, and emit a row with `item['direct'].strip()` as the
translation; keys without a matching original are skipped. -/
def buildDirectGo (r : RespDict) (lines : List TransLine) : List Nat → List TransResult
  | [] => []
  | key :: rest =>
    match lines.find? (fun d => d.id == key) with
    | some orig =>
        { id := orig.id
          text := orig.text
          translation := .str (pyStrip (strValOr (r.get key).direct))
          speaker_id := orig.speaker_id
          start := orig.start
          stop := orig.stop } :: buildDirectGo r lines rest
    | none => buildDirectGo r lines rest

/-- Faithful-only result list over the sorted key list. -/
def buildResultDirect (r : RespDict) (lines : List TransLine) : List TransResult :=
  buildDirectGo r lines (r.keys.sort (· ≤ ·))

/-- `item['free'].replace('\n', ' ').strip()` (line 141): raises
`AttributeError` unless the `free` field is a string. -/
def freeNormString (it : TransItem) : Except PyErr String :=
  match it.free with
  | some (.str s) => .ok (pyStrip (replaceNewlineSpace s))
  | _ => .error .attrError

/-- The result assembly of lines 132-145 (expressive path) over the sorted key
list; the first failing `free` access aborts with the exception. -/
def buildExpressGo (r : RespDict) (lines : List TransLine) :
    List Nat → Except PyErr (List TransResult)
  | [] => .ok []
  | key :: rest =>
    match lines.find? (fun d => d.id == key) with
    | some orig =>
      match freeNormString (r.get key) with
      | .error e => .error e
      | .ok tr =>
        match buildExpressGo r lines rest with
        | .error e => .error e
        | .ok tail =>
            .ok ({ id := orig.id
                   text := orig.text
                   translation := .str tr
                   speaker_id := orig.speaker_id
                   start := orig.start
                   stop := orig.stop } :: tail)
    | none => buildExpressGo r lines rest

/-- Expressive-path result list (lines 132-145). -/
def buildResultExpress (r : RespDict) (lines : List TransLine) :
    Except PyErr (List TransResult) :=
  buildExpressGo r lines (r.keys.sort (· ≤ ·))

/-- `translate_lines(lines_with_ids, ...)` (lines 46-151). `reflect` is the
`reflect_translate` configuration switch; `prompt1` abstracts
`get_prompt_faithfulness`, `prompt2` abstracts `get_prompt_expressiveness`
applied to the (already newline-normalized) faithful result. -/
def translate_lines (llm : String → Except PyErr RespDict) (reflect : Bool)
    (prompt1 : String) (prompt2 : RespDict → String) (lines : List TransLine) :
    Except PyErr (List TransResult) :=
  let expectedIds := (lines.map (·.id)).toFinset
  let lineCount := lines.length
  match retry_translation llm prompt1
      (fun r => valid_translate_result r expectedIds [.direct]) lineCount with
  | .error e => .error e
  | .ok faith =>
    match normalizeDirects faith with
    | .error e => .error e
    | .ok faithN =>
      if reflect = false then .ok (buildResultDirect faithN lines)
      else
        match retry_translation llm (prompt2 faithN)
            (fun r => valid_translate_result r expectedIds [.free]) lineCount with
        | .error e => .error e
        | .ok express =>
          match buildResultExpress express lines with
          | .error e => .error e
          | .ok resultList =>
              if resultList.length = lineCount then .ok resultList
              else .error .lengthMismatch

/-! ## Theorems -/

/-- C9, counterexample: the fallback of `batch_trim_subtitles` does not map an
id to the text with punctuation replaced by spaces — it additionally strips the
result. For the single-item batch `{id: 1, text: "Hi."}` and a failing request,
the code returns `"Hi"`, while the text with `.` replaced by a space is
`"Hi "`. -/
theorem c9_counterexample :
    batch_trim_subtitles (fun _ => .error .requestError) (fun _ => "") [⟨1, "Hi.", 2⟩] 0
        = [(1, "Hi")]
      ∧ replacePunctWithSpace "Hi." = "Hi "
      ∧ ("Hi" : String) ≠ "Hi " := by
  refine ⟨rfl, rfl, by decide⟩

/-- C9 (amended): when the batch trim request fails, `batch_trim_subtitles`
returns, deterministically and without any further network call, a result that
contains every requested id, mapping each id to the original text with every
character of the punctuation set `[,.!?;:，。！？；：]` replaced by a space and
the result then stripped of leading/trailing whitespace; this fallback path
never raises (it is the total function `trimFallback`, independent of the
oracle). -/
theorem c9_trim_fallback (llm : String → Except PyErr (List (Nat × String)))
    (mkPrompt : List TrimItem → String) (batches : List TrimItem)
    (retryAttempt : Nat) (e : PyErr)
    (hfail : ask_gpt llm (mkPrompt batches ++ spaces retryAttempt)
        (validBatchTrim batches) = .error e) :
    batch_trim_subtitles llm mkPrompt batches retryAttempt = trimFallback batches
      ∧ (trimFallback batches).map Prod.fst = batches.map (·.id)
      ∧ ∀ p ∈ trimFallback batches, ∃ item ∈ batches,
          p = (item.id, pyStrip (replacePunctWithSpace item.text)) := by
  refine ⟨?_, ?_, ?_⟩
  · unfold batch_trim_subtitles
    by_cases hb : batches = []
    · simp [hb, trimFallback]
    · simp only [hb, if_false, hfail]
  · simp [trimFallback]
  · intro p hp
    simp only [trimFallback, List.mem_map] at hp
    obtain ⟨item, hitem, rfl⟩ := hp
    exact ⟨item, hitem, rfl⟩

/-- C9 witness: a concrete failing request takes the fallback path. -/
theorem c9_trim_fallback_witness :
    batch_trim_subtitles (fun _ => .error .requestError) (fun _ => "")
        [⟨4, "a, b!", 1⟩] 0 = trimFallback [⟨4, "a, b!", 1⟩] :=
  (c9_trim_fallback (fun _ => .error .requestError) (fun _ => "")
    [⟨4, "a, b!", 1⟩] 0 .requestError rfl).1

/-- C8, counterexample: `split_by_comma` does not split only at the first
qualifying comma: on a 73-character sentence with qualifying commas at offsets
18 and 49 it returns three parts, not exactly two. -/
theorem c8_counterexample :
    (split_by_comma
        ("one two three four, five six seven eight nine ten, eleven twelve thirteen".toList)
        60).length = 3
      ∧ (3 : Nat) ≠ 2 := by
  refine ⟨by decide, by decide⟩

theorem cutParts_length (text : List Char) :
    ∀ last ks, (cutParts text last ks).length = ks.length + 1 := by
  intro last ks
  induction ks generalizing last with
  | nil => rfl
  | cons k ks ih => simp [cutParts, ih]

theorem stripChars_ne_nil {l : List Char} {c : Char} (hc : c ∈ l)
    (hw : c.isWhitespace = false) : stripChars l ≠ [] := by
  intro h
  have h1 : (l.dropWhile Char.isWhitespace).reverse.dropWhile Char.isWhitespace = [] := by
    simpa [stripChars] using h
  have h2 : ∀ a ∈ (l.dropWhile Char.isWhitespace).reverse, a.isWhitespace = true :=
    List.dropWhile_eq_nil_iff.mp h1
  have hc' : c ∈ l.takeWhile Char.isWhitespace ++ l.dropWhile Char.isWhitespace := by
    rw [List.takeWhile_append_dropWhile]; exact hc
  rcases List.mem_append.mp hc' with h3 | h3
  · exact absurd (List.mem_takeWhile_imp h3) (by simp [hw])
  · exact absurd (h2 c (List.mem_reverse.mpr h3)) (by simp [hw])

theorem mem_commaPositions {text : List Char} {k : Nat} (h : k ∈ commaPositions text) :
    (text.get? k = some ',' ∨ text.get? k = some '，')
      ∧ 10 < k ∧ 10 < text.length - k := by
  have h2 := (List.mem_filter.mp h).2
  simp only [isSplitComma, Bool.and_eq_true, Bool.or_eq_true, beq_iff_eq,
    decide_eq_true_eq] at h2
  exact ⟨h2.1.1, h2.1.2, h2.2⟩

/-- C8 (amended): for a sentence over the threshold the comma splitter splits at
every internal comma more than 10 characters from the start and more than 10
from the end — the first such comma ends the first part — yielding, after
stripping and dropping empty fragments, at most one more non-empty part than
there are qualifying commas; a sentence at or below the threshold is returned
unsplit as a single part. -/
theorem c8_split_every_comma (text : List Char) (maxLength : Nat) :
    (text.length ≤ maxLength → split_by_comma text maxLength = [text])
      ∧ (maxLength < text.length →
          (∀ p ∈ split_by_comma text maxLength, p ≠ [])
            ∧ (split_by_comma text maxLength).length ≤ (commaPositions text).length + 1
            ∧ ∀ k ks, commaPositions text = k :: ks →
                (split_by_comma text maxLength).head? =
                  some (stripChars (text.take (k + 1)))) := by
  constructor
  · intro h; simp [split_by_comma, h]
  · intro h
    have hs : split_by_comma text maxLength
        = (cutParts text 0 (commaPositions text)).filter (· ≠ []) := by
      simp [split_by_comma, Nat.not_le.mpr h]
    refine ⟨?_, ?_, ?_⟩
    · intro p hp
      rw [hs] at hp
      simpa using (List.mem_filter.mp hp).2
    · rw [hs]
      calc ((cutParts text 0 (commaPositions text)).filter (· ≠ [])).length
          ≤ (cutParts text 0 (commaPositions text)).length := List.length_filter_le _ _
        _ = (commaPositions text).length + 1 := cutParts_length text 0 _
    · intro k ks hks
      have hk : k ∈ commaPositions text := by rw [hks]; exact List.mem_cons_self k ks
      obtain ⟨hcomma, -, -⟩ := mem_commaPositions hk
      have hklen : k < text.length := by
        rcases hcomma with hc | hc <;>
          exact List.get?_eq_some.mp hc |>.choose
      have hmem : ∃ c, c ∈ text.take (k + 1) ∧ c.isWhitespace = false := by
        rcases hcomma with hc | hc
        · refine ⟨',', ?_, by decide⟩
          apply List.get?_mem (n := k)
          rwa [List.get?_take (by omega)]
        · refine ⟨'，', ?_, by decide⟩
          apply List.get?_mem (n := k)
          rwa [List.get?_take (by omega)]
      obtain ⟨c, hcmem, hcw⟩ := hmem
      have hne : stripChars (text.take (k + 1)) ≠ [] := stripChars_ne_nil hcmem hcw
      rw [hs, hks]
      have hcut : cutParts text 0 (k :: ks)
          = stripChars (text.take (k + 1)) :: cutParts text (k + 1) ks := by
        simp [cutParts]
      rw [hcut, List.filter_cons_of_pos (by simpa using hne)]
      rfl

/-- C8 witness: a short sentence is returned unsplit. -/
theorem c8_split_witness :
    split_by_comma ("short sentence".toList) 60 = ["short sentence".toList] :=
  (c8_split_every_comma ("short sentence".toList) 60).1 (by decide)

theorem totalCharLen_nil : totalCharLen [] = 0 := rfl

theorem totalCharLen_cons (x : String) (l : List String) :
    totalCharLen (x :: l) = x.length + totalCharLen l := by
  simp [totalCharLen]

theorem roundHalfEven_abs (q : ℚ) : |((roundHalfEven q : ℤ) : ℚ) - q| ≤ 1 / 2 := by
  have hle : ((⌊q⌋ : ℤ) : ℚ) ≤ q := Int.floor_le q
  have hlt : q < ⌊q⌋ + 1 := Int.lt_floor_add_one q
  unfold roundHalfEven
  split
  · next h => rw [abs_le]; constructor <;> push_cast <;> linarith
  · split
    · next h h2 => rw [abs_le]; constructor <;> push_cast <;> linarith
    · next h h2 =>
      have hq : q - ⌊q⌋ = 1 / 2 := by linarith
      split <;> rw [abs_le] <;> constructor <;> push_cast <;> linarith

theorem pyRound3_abs (q : ℚ) : |pyRound3 q - q| ≤ 1 / 2000 := by
  have h := roundHalfEven_abs (q * 1000)
  have heq : pyRound3 q - q = (((roundHalfEven (q * 1000) : ℤ) : ℚ) - q * 1000) / 1000 := by
    unfold pyRound3; ring
  rw [heq, abs_div]
  rw [show |(1000 : ℚ)| = 1000 by norm_num]
  rw [div_le_iff (by norm_num)]
  linarith

theorem interpWindows_length (T : Nat) (dur : ℚ) (sp : Option String) :
    ∀ (lines : List String) (c : ℚ), (interpWindows T dur sp c lines).length = lines.length := by
  intro lines
  induction lines with
  | nil => intro c; rfl
  | cons line rest ih => intro c; simp [interpWindows, ih]

theorem interpWindows_head_start (T : Nat) (dur : ℚ) (sp : Option String)
    (lines : List String) (c : ℚ) (a : SRec)
    (h : (interpWindows T dur sp c lines).get? 0 = some a) : a.start = pyRound3 c := by
  cases lines with
  | nil => simp [interpWindows] at h
  | cons line rest =>
    simp only [interpWindows, List.get?_cons_zero, Option.some_inj] at h
    rw [← h]

theorem interpWindows_contig (T : Nat) (dur : ℚ) (sp : Option String) :
    ∀ (lines : List String) (c : ℚ) (k : Nat) (a b : SRec),
      (interpWindows T dur sp c lines).get? k = some a →
      (interpWindows T dur sp c lines).get? (k + 1) = some b → b.start = a.stop := by
  intro lines
  induction lines with
  | nil => intro c k a b ha _; simp [interpWindows] at ha
  | cons line rest ih =>
    intro c k a b ha hb
    cases k with
    | zero =>
      simp only [interpWindows, List.get?_cons_zero, Option.some_inj] at ha
      simp only [interpWindows, List.get?_cons_succ] at hb
      rw [interpWindows_head_start T dur sp rest _ b hb, ← ha]
    | succ k =>
      simp only [interpWindows, List.get?_cons_succ] at ha hb
      exact ih _ k a b ha hb

theorem interpWindows_get_pos (T : Nat) (dur : ℚ) (sp : Option String) (hT : 0 < T) :
    ∀ (lines : List String) (c : ℚ) (k : Nat) (a : SRec),
      (interpWindows T dur sp c lines).get? k = some a →
      a.start = pyRound3 (c + ((totalCharLen (lines.take k) : ℚ) / (T : ℚ)) * dur)
        ∧ a.stop = pyRound3 (c + ((totalCharLen (lines.take (k + 1)) : ℚ) / (T : ℚ)) * dur) := by
  intro lines
  induction lines with
  | nil => intro c k a h; simp [interpWindows] at h
  | cons line rest ih =>
    intro c k a h
    cases k with
    | zero =>
      simp only [interpWindows, List.get?_cons_zero, Option.some_inj] at h
      subst h
      constructor
      · simp [totalCharLen_nil]
      · simp only [List.take_succ_cons, List.take_zero, totalCharLen_cons, totalCharLen_nil,
          lineDur, if_pos hT]
        norm_num
    | succ k =>
      simp only [interpWindows, List.get?_cons_succ] at h
      obtain ⟨h1, h2⟩ := ih (c + lineDur T dur line) k a h
      rw [lineDur, if_pos hT] at h1 h2
      constructor
      · rw [h1, List.take_succ_cons, totalCharLen_cons]
        congr 1
        push_cast
        ring
      · rw [h2, List.take_succ_cons, totalCharLen_cons]
        congr 1
        push_cast
        ring

theorem interpWindows_sum (T : Nat) (dur : ℚ) (sp : Option String) :
    ∀ (lines : List String) (c : ℚ), lines ≠ [] →
      ((interpWindows T dur sp c lines).map fun r => r.stop - r.start).sum
        = pyRound3 (c + (lines.map (lineDur T dur)).sum) - pyRound3 c := by
  intro lines
  induction lines with
  | nil => intro c h; exact absurd rfl h
  | cons line rest ih =>
    intro c _
    cases rest with
    | nil => simp [interpWindows]
    | cons y rs =>
      have hne : (y :: rs) ≠ ([] : List String) := by simp
      have := ih (c + lineDur T dur line) hne
      simp only [interpWindows, List.map_cons, List.sum_cons] at this ⊢
      rw [this]
      have : c + lineDur T dur line + (lineDur T dur y + (rs.map (lineDur T dur)).sum)
          = c + (lineDur T dur line + (lineDur T dur y + (rs.map (lineDur T dur)).sum)) := by
        ring
      rw [this]
      ring

theorem sum_lineDur_eq (dur : ℚ) (lines : List String) (hT : 0 < totalCharLen lines) :
    (lines.map (lineDur (totalCharLen lines) dur)).sum = dur := by
  have key : ∀ (l : List String) (T : Nat), 0 < T →
      (l.map (lineDur T dur)).sum = ((totalCharLen l : ℚ) / (T : ℚ)) * dur := by
    intro l T h
    induction l with
    | nil => simp [totalCharLen_nil]
    | cons x rest ih =>
      simp only [List.map_cons, List.sum_cons, ih, totalCharLen_cons, lineDur, if_pos h]
      push_cast
      ring
  rw [key lines (totalCharLen lines) hT]
  rw [div_self (by positivity), one_mul]

theorem interpWindows_zero_total (dur : ℚ) (sp : Option String) :
    ∀ (lines : List String) (c : ℚ) (r : SRec),
      r ∈ interpWindows 0 dur sp c lines → r.stop = r.start := by
  intro lines
  induction lines with
  | nil => intro c r h; simp [interpWindows] at h
  | cons line rest ih =>
    intro c r h
    simp only [interpWindows, List.mem_cons] at h
    rcases h with h | h
    · subst h; simp [lineDur]
    · exact ih _ r h

/-- C5: when the meaning splitter distributes a sentence's time window
`[s, e]` over its split lines, each sub-window boundary is the proportional
interpolation `round(s + cumulative_length / total_length * (e - s), 3)` (so
each part's share is proportional to its character length), consecutive
sub-windows are contiguous, the sub-window durations sum to `e - s` up to the
rounding error of the two end boundaries (at most 1/1000 s), and when the total
character length is zero every part receives a zero-length window instead of a
division by zero. -/
theorem c5_time_interpolation (lines : List String) (s e : ℚ) (sp : Option String) :
    (splitTimeWindows lines s e sp).length = lines.length
      ∧ (∀ (k : Nat) (a b : SRec),
          (splitTimeWindows lines s e sp).get? k = some a →
          (splitTimeWindows lines s e sp).get? (k + 1) = some b → b.start = a.stop)
      ∧ (0 < totalCharLen lines → ∀ (k : Nat) (a : SRec),
          (splitTimeWindows lines s e sp).get? k = some a →
          a.start = pyRound3 (s + ((totalCharLen (lines.take k) : ℚ)
              / (totalCharLen lines : ℚ)) * (e - s))
            ∧ a.stop = pyRound3 (s + ((totalCharLen (lines.take (k + 1)) : ℚ)
              / (totalCharLen lines : ℚ)) * (e - s)))
      ∧ (0 < totalCharLen lines → lines ≠ [] →
          |((splitTimeWindows lines s e sp).map fun r => r.stop - r.start).sum - (e - s)|
            ≤ 1 / 1000)
      ∧ (totalCharLen lines = 0 → ∀ r ∈ splitTimeWindows lines s e sp, r.stop = r.start) := by
  refine ⟨interpWindows_length _ _ _ lines s, ?_, ?_, ?_, ?_⟩
  · intro k a b ha hb
    exact interpWindows_contig _ _ _ lines s k a b ha hb
  · intro hT k a ha
    exact interpWindows_get_pos _ _ _ hT lines s k a ha
  · intro hT hne
    rw [splitTimeWindows, interpWindows_sum _ _ _ lines s hne, sum_lineDur_eq _ _ hT]
    have h1 := pyRound3_abs (s + (e - s))
    have h2 := pyRound3_abs s
    rw [abs_le] at h1 h2 ⊢
    constructor <;> linarith [h1.1, h1.2, h2.1, h2.2]
  · intro hT r hr
    rw [splitTimeWindows, hT] at hr
    exact interpWindows_zero_total _ _ lines s r hr

/-- C5 witness: splitting `["ab", "c"]` over the window `[0, 1]` gives
sub-window durations summing to the window length up to rounding. -/
theorem c5_time_interpolation_witness :
    |((splitTimeWindows ["ab", "c"] 0 1 none).map fun r => r.stop - r.start).sum - (1 - 0)|
      ≤ 1 / 1000 :=
  (c5_time_interpolation ["ab", "c"] 0 1 none).2.2.2.1 (by decide) (by decide)

theorem buildCells_nil_flagged (f : Nat → String → Cell) :
    ∀ (i : Nat) (l : List String), buildCells [] f i l = l.map Cell.str := by
  intro i l
  induction l generalizing i with
  | nil => rfl
  | cons s rest ih => simp [buildCells, ih]

theorem flattenCells_map_str (l : List String) : flattenCells (l.map Cell.str) = l := by
  induction l with
  | nil => rfl
  | cons s rest ih => simp [flattenCells, cellItems] at ih ⊢; exact ih

theorem flattenSpeakers_map_str :
    ∀ (l : List String) (spk : List (Option String)), spk.length = l.length →
      flattenSpeakers (l.map Cell.str) spk = spk := by
  intro l
  induction l with
  | nil =>
    intro spk h
    rw [List.length_nil] at h
    rw [List.eq_nil_of_length_eq_zero h]
    rfl
  | cons s rest ih =>
    intro spk h
    cases spk with
    | nil => simp at h
    | cons p ps =>
      simp only [List.length_cons, Nat.add_right_cancel_iff] at h
      have := ih ps h
      simp only [flattenSpeakers, List.map_cons, List.zip_cons_cons, cellItems,
        List.replicate, List.flatten] at this ⊢
      simpa using this

/-- C6: running `split_align_subs` on input where every line already satisfies
`len(source) ≤ MAX_SUB_LENGTH` and `calc_len(translation) * TARGET_SUB_MULTIPLIER
≤ MAX_SUB_LENGTH` flags no line (`to_split = []`), returns the source lines,
translation lines, and speaker ids unchanged, and consults the
split/align oracle for no line (the result is the same for every oracle). -/
theorem c6_no_flag_identity (oracle : Nat → Option (List String × List String × String))
    (maxLen : Nat) (mult : ℚ) (srcLines trLines : List String)
    (speakerIds : Option (List (Option String)))
    (hok : ∀ i < min srcLines.length trLines.length,
        (srcLines.getD i "").length ≤ maxLen
          ∧ calc_len (trLines.getD i "") * mult ≤ (maxLen : ℚ))
    (hspk : ∀ l, speakerIds = some l → l.length = srcLines.length) :
    toSplit maxLen mult srcLines trLines = []
      ∧ split_align_subs oracle maxLen mult srcLines trLines speakerIds
          = (srcLines, trLines, trLines.map Cell.str, speakerIds) := by
  have hflag : toSplit maxLen mult srcLines trLines = [] := by
    rw [toSplit, List.filter_eq_nil_iff]
    intro i hi
    rw [List.mem_range] at hi
    obtain ⟨h1, h2⟩ := hok i hi
    simp only [needsSplit, Bool.or_eq_true, decide_eq_true_eq, not_or, not_lt]
    exact ⟨h1, h2⟩
  refine ⟨hflag, ?_⟩
  rw [split_align_subs]
  simp only [hflag, buildCells_nil_flagged, flattenCells_map_str]
  cases speakerIds with
  | none => rfl
  | some spk =>
    simp only [Option.map_some']
    rw [flattenSpeakers_map_str srcLines spk (hspk spk rfl)]

/-- C6 witness: a compliant one-line input passes through unchanged. -/
theorem c6_no_flag_identity_witness :
    split_align_subs (fun _ => none) 20 2 ["hello"] ["bonjour"] (some [some "A"])
      = (["hello"], ["bonjour"], [Cell.str "bonjour"], some [some "A"]) :=
  (c6_no_flag_identity (fun _ => none) 20 2 ["hello"] ["bonjour"] (some [some "A"])
    (by
      intro i hi
      simp only [List.length_singleton, min_self, Nat.lt_one_iff] at hi
      subst hi
      refine ⟨by decide, ?_⟩
      simp +decide [calc_len, charWeight]
      norm_num)
    (by intro l hl; cases hl; rfl)).2

theorem bound_of_getElem? {α : Type} {l : List α} {i : Nat} {a : α}
    (h : l[i]? = some a) : i < l.length := by
  by_contra hc
  rw [List.getElem?_eq_none (by omega)] at h
  simp at h

/-- C2: in the `process_srt` merge scan, whenever entry `i` has duration below
`MIN_SUB_DUR`, a next entry exists, the gap between the two start times is below
`MIN_SUB_DUR`, and both entries have the same speaker id (null equal to null),
the two entries are merged into one whose text is entry `i`'s text, a single
space, then the next entry's text, and whose end time is the next entry's end
time; the entry count decreases by exactly one and the loop re-evaluates the
same index `i`. -/
theorem c2_merge_step (minDur : ℚ) (df : List SubEntry) (i : Nat) (a b : SubEntry)
    (ha : df[i]? = some a) (hb : df[i + 1]? = some b)
    (hdur : a.duration < minDur)
    (hgap : b.start_time - a.start_time < minDur)
    (hspk : sameSpeaker a.speaker_id b.speaker_id = true) :
    processSrtLoop minDur df i
        = processSrtLoop minDur ((df.set i (mergeSubs a b)).eraseIdx (i + 1)) i
      ∧ ((df.set i (mergeSubs a b)).eraseIdx (i + 1)).length + 1 = df.length
      ∧ ((df.set i (mergeSubs a b)).eraseIdx (i + 1))[i]? = some (mergeSubs a b)
      ∧ (mergeSubs a b).text = a.text ++ " " ++ b.text
      ∧ (mergeSubs a b).end_time = b.end_time := by
  have hi1 : i + 1 < df.length := bound_of_getElem? hb
  have hi : i < df.length := by omega
  have hlen : ((df.set i (mergeSubs a b)).eraseIdx (i + 1)).length = df.length - 1 := by
    rw [List.length_eraseIdx_of_lt (by rw [List.length_set]; omega), List.length_set]
  refine ⟨?_, by omega, ?_, rfl, rfl⟩
  · unfold processSrtLoop
    have hm : df.length - i = (df.length - i - 1) + 1 := by omega
    rw [hm]
    simp only [processSrtLoopF, ha, hb]
    rw [if_pos hdur, if_pos ⟨hgap, hspk⟩]
    congr 1
    omega
  · rw [List.getElem?_eraseIdx_of_lt _ _ _ (by omega), List.getElem?_set_eq hi]

/-- C2 witness: two concrete mergeable entries; the count drops by one. -/
theorem c2_merge_step_witness :
    (([⟨1, 0, 2/5, 2/5, "a", "x", none⟩, (⟨2, 1/2, 3/2, 1, "b", "y", none⟩ : SubEntry)].set 0
        (mergeSubs ⟨1, 0, 2/5, 2/5, "a", "x", none⟩ ⟨2, 1/2, 3/2, 1, "b", "y", none⟩)).eraseIdx
        1).length + 1
      = [(⟨1, 0, 2/5, 2/5, "a", "x", none⟩ : SubEntry),
         ⟨2, 1/2, 3/2, 1, "b", "y", none⟩].length :=
  (c2_merge_step 1 [⟨1, 0, 2/5, 2/5, "a", "x", none⟩, ⟨2, 1/2, 3/2, 1, "b", "y", none⟩] 0
    ⟨1, 0, 2/5, 2/5, "a", "x", none⟩ ⟨2, 1/2, 3/2, 1, "b", "y", none⟩
    rfl rfl (by norm_num) (by norm_num) rfl).2.1

theorem processSrtLoopF_floor (minDur : ℚ) :
    ∀ (fuel : Nat) (df : List SubEntry) (i : Nat), df.length - i ≤ fuel →
      (∀ j x, j < i → df[j]? = some x → j + 1 < df.length → minDur ≤ x.duration) →
      ∀ j x, (processSrtLoopF minDur fuel df i)[j]? = some x →
        j + 1 < (processSrtLoopF minDur fuel df i).length → minDur ≤ x.duration := by
  intro fuel
  induction fuel with
  | zero =>
    intro df i hfuel hpre j x hj hjlen
    simp only [processSrtLoopF] at hj hjlen
    exact hpre j x (by omega) hj hjlen
  | succ fuel ih =>
    intro df i hfuel hpre j x hj hjlen
    cases hdi : df[i]? with
    | none =>
      have hilen : df.length ≤ i := by
        by_contra hc
        rw [List.getElem?_eq_getElem (by omega)] at hdi
        simp at hdi
      simp only [processSrtLoopF, hdi] at hj hjlen
      exact hpre j x (by omega) hj hjlen
    | some a =>
      have hi : i < df.length := bound_of_getElem? hdi
      by_cases hdur : a.duration < minDur
      · cases hdb : df[i + 1]? with
        | some b =>
          have hi1 : i + 1 < df.length := bound_of_getElem? hdb
          by_cases hcan : b.start_time - a.start_time < minDur
              ∧ sameSpeaker a.speaker_id b.speaker_id = true
          · simp only [processSrtLoopF, hdi, hdb, if_pos hdur, if_pos hcan] at hj hjlen
            have hlen' : ((df.set i (mergeSubs a b)).eraseIdx (i + 1)).length
                = df.length - 1 := by
              rw [List.length_eraseIdx_of_lt (by rw [List.length_set]; omega),
                List.length_set]
            refine ih _ i (by omega) ?_ j x hj hjlen
            intro j' x' hj' hx' hj'len
            rw [List.getElem?_eraseIdx_of_lt _ _ _ (by omega),
              List.getElem?_set_ne (by omega)] at hx'
            exact hpre j' x' hj' hx' (by omega)
          · simp only [processSrtLoopF, hdi, hdb, if_pos hdur, if_neg hcan] at hj hjlen
            refine ih _ (i + 1) (by rw [List.length_set]; omega) ?_ j x hj hjlen
            intro j' x' hj' hx' hj'len
            rw [List.length_set] at hj'len
            by_cases hji : j' = i
            · subst hji
              rw [List.getElem?_set_eq hi] at hx'
              cases hx'
              exact le_refl minDur
            · rw [List.getElem?_set_ne (by omega)] at hx'
              exact hpre j' x' (by omega) hx' hj'len
        | none =>
          have hi1 : df.length ≤ i + 1 := by
            by_contra hc
            rw [List.getElem?_eq_getElem (by omega)] at hdb
            simp at hdb
          simp only [processSrtLoopF, hdi, hdb, if_pos hdur] at hj hjlen
          refine ih df (i + 1) (by omega) ?_ j x hj hjlen
          intro j' x' hj' hx' hj'len
          exact hpre j' x' (by omega) hx' hj'len
      · simp only [processSrtLoopF, hdi, if_neg hdur] at hj hjlen
        refine ih df (i + 1) (by omega) ?_ j x hj hjlen
        intro j' x' hj' hx' hj'len
        by_cases hji : j' = i
        · subst hji
          rw [hdi] at hx'
          cases hx'
          exact le_of_not_lt hdur
        · exact hpre j' x' (by omega) hx' hj'len

/-- C10: the `process_srt` merge loop terminates on every finite input (the
embedded loop is a total function, its variant being `len(df) - i`), and on
exit every entry except possibly the last has duration at least `MIN_SUB_DUR`;
the duration-floor extension sets an entry's duration to exactly
`MIN_SUB_DUR`, so only the final entry may remain below the floor. -/
theorem c10_duration_floor (minDur : ℚ) (df : List SubEntry) :
    (∀ j x, (processSrtLoop minDur df 0)[j]? = some x →
        j + 1 < (processSrtLoop minDur df 0).length → minDur ≤ x.duration)
      ∧ ∀ a : SubEntry, (extendSub minDur a).duration = minDur := by
  refine ⟨?_, fun a => rfl⟩
  intro j x hj hjlen
  exact processSrtLoopF_floor minDur (df.length - 0) df 0 (by omega)
    (fun j' x' hj' _ _ => absurd hj' (by omega)) j x hj hjlen

/-- C10 witness: a short first entry that cannot merge is extended to exactly
the floor, so the surviving non-final entry meets it. -/
theorem c10_duration_floor_witness :
    (1 : ℚ) ≤ (⟨1, 0, 1, 1, "a", "x", none⟩ : SubEntry).duration :=
  (c10_duration_floor 1
      [⟨1, 0, 1/2, 1/2, "a", "x", none⟩, ⟨2, 5, 7, 2, "b", "y", none⟩]).1 0
    ⟨1, 0, 1, 1, "a", "x", none⟩
    (by norm_num [processSrtLoop, processSrtLoopF, extendSub, sameSpeaker])
    (by norm_num [processSrtLoop, processSrtLoopF, extendSub, sameSpeaker])

theorem map_eraseIdx {α β : Type} (f : α → β) :
    ∀ (l : List α) (k : Nat), (l.eraseIdx k).map f = (l.map f).eraseIdx k := by
  intro l
  induction l with
  | nil => intro k; cases k <;> rfl
  | cons x xs ih =>
    intro k
    cases k with
    | zero => rfl
    | succ k => simp [List.eraseIdx_cons_succ, ih]

theorem map_number_set (df : List SubEntry) (i : Nat) (a m : SubEntry)
    (ha : df[i]? = some a) (hnum : m.number = a.number) :
    (df.set i m).map (·.number) = df.map (·.number) := by
  apply List.ext_getElem?
  intro n
  rw [List.getElem?_map, List.getElem?_map]
  by_cases hn : n = i
  · subst hn
    rw [List.getElem?_set_eq (bound_of_getElem? ha), ha]
    simp [hnum]
  · rw [List.getElem?_set_ne (by omega)]

theorem pairwise_lt_range'' (s n : Nat) : (List.range' s n).Pairwise (· < ·) := by
  induction n generalizing s with
  | zero => simp
  | succ n ih =>
    rw [List.range'_succ]
    refine List.Pairwise.cons ?_ (ih (s + 1))
    intro b hb
    have := List.mem_range'_1.mp hb
    omega

theorem processSrtLoopF_numbers_sublist (minDur : ℚ) :
    ∀ (fuel : Nat) (df : List SubEntry) (i : Nat),
      ((processSrtLoopF minDur fuel df i).map (·.number)).Sublist (df.map (·.number)) := by
  intro fuel
  induction fuel with
  | zero => intro df i; exact List.Sublist.refl _
  | succ fuel ih =>
    intro df i
    cases hdi : df[i]? with
    | none =>
      simp only [processSrtLoopF, hdi]
      exact List.Sublist.refl _
    | some a =>
      by_cases hdur : a.duration < minDur
      · cases hdb : df[i + 1]? with
        | some b =>
          by_cases hcan : b.start_time - a.start_time < minDur
              ∧ sameSpeaker a.speaker_id b.speaker_id = true
          · simp only [processSrtLoopF, hdi, hdb, if_pos hdur, if_pos hcan]
            refine (ih _ i).trans ?_
            rw [map_eraseIdx, map_number_set df i a (mergeSubs a b) hdi rfl]
            exact List.eraseIdx_sublist _ _
          · simp only [processSrtLoopF, hdi, hdb, if_pos hdur, if_neg hcan]
            have h := ih (df.set i (extendSub minDur a)) (i + 1)
            rwa [map_number_set df i a (extendSub minDur a) hdi rfl] at h
        | none =>
          simp only [processSrtLoopF, hdi, hdb, if_pos hdur]
          exact ih df (i + 1)
      · simp only [processSrtLoopF, hdi, if_neg hdur]
        exact ih df (i + 1)

theorem mkSubs_map_number :
    ∀ (rows : List SubRow) (i : Nat),
      (mkSubs i rows).map (·.number) = List.range' (i + 1) rows.length := by
  intro rows
  induction rows with
  | nil => intro i; rfl
  | cons r rest ih =>
    intro i
    simp only [mkSubs, List.map_cons, List.length_cons, List.range'_succ, ih]

/-- C4 (amended): `process_srt` assigns `number` fields as 1-based row positions
at parse time and never reassigns them after the merge loop: a merged entry
keeps its first constituent's number, so the surviving numbers form a strictly
increasing subsequence of `1..n`, but need not be the sequence `1..k`. -/
theorem c4_numbers_not_reassigned (minDur : ℚ) (rows : List SubRow) :
    ((process_srt minDur rows).map (·.number)).Sublist (List.range' 1 rows.length)
      ∧ ((process_srt minDur rows).map (·.number)).Pairwise (· < ·) := by
  have hsub := processSrtLoopF_numbers_sublist minDur
    ((mkSubs 0 rows).length - 0) (mkSubs 0 rows) 0
  rw [mkSubs_map_number rows 0] at hsub
  have hrange : (List.range' 1 rows.length).Pairwise (· < ·) := pairwise_lt_range'' 1 _
  exact ⟨hsub, List.Pairwise.sublist hsub hrange⟩

/-- C4, counterexample: with three parsed rows where the first two merge, the
surviving entries keep numbers `[1, 3]`; the second surviving AudioTask has
number 3, not 2, so entries are not renumbered sequentially. -/
theorem c4_counterexample :
    ((process_srt 1
        [⟨0, 2/5, 2/5, "a", "x", none⟩, ⟨1/2, 3/2, 1, "b", "y", none⟩,
         ⟨5, 7, 2, "c", "z", none⟩]).map (·.number)) = [1, 3]
      ∧ [1, 3] ≠ [1, 2] := by
  constructor
  · norm_num [process_srt, mkSubs, processSrtLoop, processSrtLoopF, mergeSubs,
      extendSub, sameSpeaker]
  · decide

/-- C3, counterexample: a missing clip is skipped with no substituted silence,
so the assembled duration does not equal the last task's end time. With clips
`[some 1000 ms, missing]` scheduled at `[(0 s, 1 s), (1 s, 2 s)]` the code
produces 1000 ms of audio, while the last end time is 2 s = 2000 ms. -/
theorem c3_counterexample :
    merge_audio_segments [some 1000, none] [(0, 1), (1, 2)] = 1000
      ∧ (1000 : ℚ) ≠ 2 * 1000 := by
  constructor
  · norm_num [merge_audio_segments, mergeAudioLoop]
  · norm_num

theorem mergeAudioLoop_ms :
    ∀ (l : List (ℤ × ℤ)) (hne : l ≠ []) (pe : ℤ),
      l.Chain' (fun p q => p.2 ≤ q.1) →
      pe ≤ (l.head hne).1 →
      mergeAudioLoop (some ((pe : ℚ) / 1000))
          (l.map fun p => (some (((p.2 - p.1 : ℤ) : ℚ)), ((p.1 : ℚ) / 1000, (p.2 : ℚ) / 1000)))
        = (((l.getLast hne).2 - pe : ℤ) : ℚ) := by
  intro l
  induction l with
  | nil => intro hne; exact absurd rfl hne
  | cons x rest ih =>
    intro hne pe hchain hpe
    rw [List.head_cons] at hpe
    have hsil : (if 0 < (x.1 : ℚ) / 1000 - (pe : ℚ) / 1000
        then ((⌊((x.1 : ℚ) / 1000 - (pe : ℚ) / 1000) * 1000⌋ : ℤ) : ℚ) else 0)
        = ((x.1 - pe : ℤ) : ℚ) := by
      have hdiff : (x.1 : ℚ) / 1000 - (pe : ℚ) / 1000 = ((x.1 - pe : ℤ) : ℚ) / 1000 := by
        push_cast; ring
      rcases lt_or_eq_of_le hpe with hlt | heq
      · rw [if_pos]
        · rw [hdiff, div_mul_cancel₀ _ (by norm_num : (1000 : ℚ) ≠ 0), Int.floor_intCast]
        · rw [hdiff]
          have : (0 : ℚ) < ((x.1 - pe : ℤ) : ℚ) := by
            exact_mod_cast Int.sub_pos.mpr hlt
          positivity
      · rw [if_neg, heq]
        · push_cast; ring
        · rw [hdiff, ← heq]
          simp
    cases rest with
    | nil =>
      simp only [List.map_cons, List.map_nil, mergeAudioLoop, hsil, List.getLast_singleton]
      push_cast
      ring
    | cons y rs =>
      obtain ⟨hxy, hchain'⟩ := List.chain'_cons.mp hchain
      have hne' : (y :: rs) ≠ ([] : List (ℤ × ℤ)) := by simp
      have := ih hne' x.2 hchain' (by rw [List.head_cons]; exact hxy)
      simp only [List.map_cons, mergeAudioLoop, hsil] at this ⊢
      rw [this, List.getLast_cons hne']
      push_cast
      ring

/-- C3 (amended): the assembled track's total duration equals the last
AudioTask's end time under the hypotheses the code actually needs: every clip
file exists, each clip's decoded length equals its scheduled window
`end - start`, windows are non-overlapping and at millisecond granularity, and
the first start is non-negative. The code keeps no written-end-time cursor: the
inter-entry silence is `int((start_i - new_sub_times[i-1][1]) * 1000)` computed
from the previous entry's scheduled end (whether or not that entry's clip was
appended), and a missing clip is skipped entirely rather than replaced by
silence of the task's duration. Times are integer milliseconds `p`, converted
to seconds `p / 1000`; the result is in milliseconds. -/
theorem c3_total_duration (l : List (ℤ × ℤ)) (hne : l ≠ [])
    (h0 : 0 ≤ (l.head hne).1)
    (hchain : l.Chain' fun p q => p.2 ≤ q.1) :
    merge_audio_segments (l.map fun p => some (((p.2 - p.1 : ℤ) : ℚ)))
        (l.map fun p => ((p.1 : ℚ) / 1000, (p.2 : ℚ) / 1000))
      = (((l.getLast hne).2 : ℤ) : ℚ) := by
  cases l with
  | nil => exact absurd rfl hne
  | cons x rest =>
    rw [List.head_cons] at h0
    rw [merge_audio_segments, List.zip_map']
    have hsil : (if 0 < (x.1 : ℚ) / 1000
        then ((⌊(x.1 : ℚ) / 1000 * 1000⌋ : ℤ) : ℚ) else 0) = ((x.1 : ℤ) : ℚ) := by
      rcases lt_or_eq_of_le h0 with hlt | heq
      · rw [if_pos]
        · rw [div_mul_cancel₀ _ (by norm_num : (1000 : ℚ) ≠ 0), Int.floor_intCast]
        · have : (0 : ℚ) < (x.1 : ℚ) := by exact_mod_cast hlt
          positivity
      · rw [if_neg]
        · exact_mod_cast heq
        · rw [← heq]
          simp
    cases rest with
    | nil =>
      simp only [List.map_cons, List.map_nil, mergeAudioLoop, hsil, List.getLast_singleton]
      push_cast
      ring
    | cons y rs =>
      obtain ⟨hxy, hchain'⟩ := List.chain'_cons.mp hchain
      have hne' : (y :: rs) ≠ ([] : List (ℤ × ℤ)) := by simp
      have haux := mergeAudioLoop_ms (y :: rs) hne' x.2 hchain'
        (by rw [List.head_cons]; exact hxy)
      simp only [List.map_cons, mergeAudioLoop, hsil] at haux ⊢
      rw [haux, List.getLast_cons hne']
      push_cast
      ring

/-- C3 witness: two contiguous whole-millisecond tasks with exact clips
assemble to the last end time. -/
theorem c3_total_duration_witness :
    merge_audio_segments
        ([((0 : ℤ), (1000 : ℤ)), (1500, 2500)].map fun p => some (((p.2 - p.1 : ℤ) : ℚ)))
        ([((0 : ℤ), (1000 : ℤ)), (1500, 2500)].map fun p => ((p.1 : ℚ) / 1000, (p.2 : ℚ) / 1000))
      = ((([((0 : ℤ), (1000 : ℤ)), (1500, 2500)].getLast (by simp)).2 : ℤ) : ℚ) :=
  c3_total_duration [((0 : ℤ), (1000 : ℤ)), (1500, 2500)] (by simp) (by simp)
    (by simp)

theorem askGptOnce_ok_valid {α : Type} {llm : String → Except PyErr α} {p : String}
    {v : α → Bool} {r : α} (h : askGptOnce llm p v = .ok r) : v r = true := by
  unfold askGptOnce at h
  split at h
  · simp at h
  · split at h
    · next hv =>
      cases h
      exact hv
    · simp at h

theorem retryTranslationGo_ok {llm : String → Except PyErr RespDict} {prompt : String}
    {v : RespDict → Bool} {n : Nat} :
    ∀ (retry rem : Nat) (r : RespDict),
      retryTranslationGo llm prompt v n retry rem = .ok r →
      v r = true ∧ r.keys.card = n := by
  intro retry rem
  induction rem generalizing retry with
  | zero => intro r h; simp [retryTranslationGo] at h
  | succ rem ih =>
    intro r h
    rw [retryTranslationGo] at h
    split at h
    · simp at h
    · next result heq =>
      split at h
      · next hc =>
        cases h
        refine ⟨?_, hc⟩
        rw [ask_gpt_eq_once] at heq
        exact askGptOnce_ok_valid heq
      · exact ih (retry + 1) r h

theorem retry_translation_ok {llm : String → Except PyErr RespDict} {prompt : String}
    {v : RespDict → Bool} {n : Nat} {r : RespDict}
    (h : retry_translation llm prompt v n = .ok r) :
    v r = true ∧ r.keys.card = n :=
  retryTranslationGo_ok 0 3 r h

theorem valid_translate_result_spec {r : RespDict} {expected : Finset Nat}
    {subKeys : List SubKey} (h : valid_translate_result r expected subKeys = true) :
    r.keys = expected
      ∧ ∀ k ∈ r.keys, (r.get k).id = some k
          ∧ ∀ sk ∈ subKeys, (getSubKey sk (r.get k)).isSome = true := by
  simp only [valid_translate_result, Bool.and_eq_true, decide_eq_true_eq] at h
  exact h

theorem normalizeDirects_ok {r r' : RespDict} (h : normalizeDirects r = .ok r') :
    r'.keys = r.keys
      ∧ (∀ k, (r'.get k).id = (r.get k).id)
      ∧ ∀ k ∈ r.keys, ∃ s, (r'.get k).direct = some (JsonVal.str s) := by
  unfold normalizeDirects at h
  split at h
  · next hcond =>
    rw [decide_eq_true_eq] at hcond
    cases h
    refine ⟨rfl, fun k => rfl, fun k hk => ?_⟩
    have := hcond k hk
    cases hd : (r.get k).direct with
    | none => rw [hd] at this; simp [isStrVal] at this
    | some v =>
      cases v with
      | str s => exact ⟨replaceNewlineSpace s, by simp [hd]⟩
      | null => rw [hd] at this; simp [isStrVal] at this
      | other => rw [hd] at this; simp [isStrVal] at this
  · simp at h

theorem find?_id_eq {lines : List TransLine} {key : Nat} {orig : TransLine}
    (h : lines.find? (fun d => d.id == key) = some orig) :
    orig.id = key ∧ orig ∈ lines := by
  constructor
  · have := List.find?_some h
    simpa using this
  · exact List.mem_of_find?_eq_some h

theorem find?_isSome_of_exists {lines : List TransLine} {key : Nat}
    (h : ∃ d ∈ lines, d.id = key) :
    ∃ orig, lines.find? (fun d => d.id == key) = some orig := by
  obtain ⟨d, hd, hid⟩ := h
  have : (lines.find? (fun d => d.id == key)).isSome := by
    rw [List.find?_isSome]
    exact ⟨d, hd, by simp [hid]⟩
  exact Option.isSome_iff_exists.mp this

theorem buildDirectGo_map_id {r : RespDict} {lines : List TransLine} :
    ∀ ks : List Nat, (∀ k ∈ ks, ∃ d ∈ lines, d.id = k) →
      (buildDirectGo r lines ks).map (·.id) = ks := by
  intro ks
  induction ks with
  | nil => intro _; rfl
  | cons key rest ih =>
    intro hks
    obtain ⟨orig, horig⟩ := find?_isSome_of_exists (hks key (List.mem_cons_self key rest))
    obtain ⟨hid, -⟩ := find?_id_eq horig
    simp only [buildDirectGo, horig, List.map_cons]
    rw [hid, ih fun k hk => hks k (List.mem_cons_of_mem _ hk)]

theorem buildDirectGo_translation {r : RespDict} {lines : List TransLine} :
    ∀ (ks : List Nat) (t : TransResult), t ∈ buildDirectGo r lines ks →
      ∃ s, t.translation = JsonVal.str s := by
  intro ks
  induction ks with
  | nil => intro t ht; simp [buildDirectGo] at ht
  | cons key rest ih =>
    intro t ht
    cases hfind : lines.find? (fun d => d.id == key) <;>
      rw [buildDirectGo, hfind] at ht
    · exact ih t ht
    · rcases List.mem_cons.mp ht with h | h
      · subst h
        exact ⟨_, rfl⟩
      · exact ih t h

theorem buildExpressGo_ok_map_id {r : RespDict} {lines : List TransLine} :
    ∀ (ks : List Nat) (res : List TransResult),
      (∀ k ∈ ks, ∃ d ∈ lines, d.id = k) →
      buildExpressGo r lines ks = .ok res →
      res.map (·.id) = ks ∧ ∀ t ∈ res, ∃ s, t.translation = JsonVal.str s := by
  intro ks
  induction ks with
  | nil =>
    intro res _ h
    cases h
    exact ⟨rfl, by simp⟩
  | cons key rest ih =>
    intro res hks h
    rw [buildExpressGo] at h
    split at h
    · next orig horig =>
      obtain ⟨hid, -⟩ := find?_id_eq horig
      split at h
      · simp at h
      · next tr hfree =>
        split at h
        · simp at h
        · next tail htail =>
          cases h
          obtain ⟨ihmap, ihtr⟩ :=
            ih tail (fun k hk => hks k (List.mem_cons_of_mem _ hk)) htail
          constructor
          · simp only [List.map_cons, ihmap, hid]
          · intro t ht
            rcases List.mem_cons.mp ht with h | h
            · subst h
              exact ⟨_, rfl⟩
            · exact ihtr t h
    · next hnone =>
      obtain ⟨orig, horig⟩ := find?_isSome_of_exists (hks key (List.mem_cons_self key rest))
      rw [horig] at hnone
      simp at hnone

/-- C1: whenever `translate_lines` returns a result list (rather than raising),
the list contains exactly one entry per input line, its ids are strictly sorted
(so every id appears exactly once), every returned id is an input id, every
input id is returned exactly once, and every entry's translation is a (non-null)
JSON string. -/
theorem c1_translate_lines (llm : String → Except PyErr RespDict) (reflect : Bool)
    (prompt1 : String) (prompt2 : RespDict → String) (lines : List TransLine)
    (res : List TransResult)
    (h : translate_lines llm reflect prompt1 prompt2 lines = .ok res) :
    res.length = lines.length
      ∧ (res.map (·.id)).Sorted (· < ·)
      ∧ (∀ d ∈ lines, (res.map (·.id)).count d.id = 1)
      ∧ (∀ i ∈ res.map (·.id), ∃ d ∈ lines, d.id = i)
      ∧ ∀ t ∈ res, ∃ s, t.translation = JsonVal.str s := by
  simp only [translate_lines] at h
  split at h
  · simp at h
  · next faith hfaith =>
    split at h
    · simp at h
    · next faithN hnorm =>
      obtain ⟨hvalid, hcard⟩ := retry_translation_ok hfaith
      obtain ⟨hkeys, -⟩ := valid_translate_result_spec hvalid
      obtain ⟨hkeysN, -, -⟩ := normalizeDirects_ok hnorm
      split at h
      · cases h
        have hmemks : ∀ k ∈ faithN.keys.sort (· ≤ ·), ∃ d ∈ lines, d.id = k := by
          intro k hk
          rw [Finset.mem_sort, hkeysN, hkeys, List.mem_toFinset] at hk
          obtain ⟨d, hd, hid⟩ := List.mem_map.mp hk
          exact ⟨d, hd, hid⟩
        have hmap : (buildResultDirect faithN lines).map (·.id)
            = faithN.keys.sort (· ≤ ·) := buildDirectGo_map_id _ hmemks
        refine ⟨?_, ?_, ?_, ?_, ?_⟩
        · have hlen := congrArg List.length hmap
          rw [List.length_map] at hlen
          rw [hlen, Finset.length_sort, hkeysN]
          exact hcard
        · rw [hmap]
          exact Finset.sort_sorted_lt _
        · intro d hd
          rw [hmap]
          apply List.count_eq_one_of_mem (Finset.sort_nodup _ _)
          rw [Finset.mem_sort, hkeysN, hkeys]
          exact List.mem_toFinset.mpr (List.mem_map_of_mem _ hd)
        · intro i hi
          rw [hmap] at hi
          exact hmemks i hi
        · intro t ht
          exact buildDirectGo_translation _ t ht
      · split at h
        · simp at h
        · next express hexp =>
          split at h
          · simp at h
          · next resultList hbuild =>
            split at h
            · cases h
              obtain ⟨hvalidE, hcardE⟩ := retry_translation_ok hexp
              obtain ⟨hkeysE, -⟩ := valid_translate_result_spec hvalidE
              have hmemks : ∀ k ∈ express.keys.sort (· ≤ ·), ∃ d ∈ lines, d.id = k := by
                intro k hk
                rw [Finset.mem_sort, hkeysE, List.mem_toFinset] at hk
                obtain ⟨d, hd, hid⟩ := List.mem_map.mp hk
                exact ⟨d, hd, hid⟩
              obtain ⟨hmap, htr⟩ := buildExpressGo_ok_map_id _ res hmemks hbuild
              refine ⟨?_, ?_, ?_, ?_, htr⟩
              · have hlen := congrArg List.length hmap
                rw [List.length_map] at hlen
                rw [hlen, Finset.length_sort]
                exact hcardE
              · rw [hmap]
                exact Finset.sort_sorted_lt _
              · intro d hd
                rw [hmap]
                apply List.count_eq_one_of_mem (Finset.sort_nodup _ _)
                rw [Finset.mem_sort, hkeysE]
                exact List.mem_toFinset.mpr (List.mem_map_of_mem _ hd)
              · intro i hi
                rw [hmap] at hi
                exact hmemks i hi
            · simp at h

/-- C1 witness: a concrete single-line run with a valid faithful response. -/
theorem c1_translate_lines_witness :
    ([(⟨1, "t", JsonVal.str "hi", none, none, none⟩ : TransResult)]).length
      = ([(⟨1, "t", none, none, none⟩ : TransLine)]).length :=
  (c1_translate_lines
    (fun _ => .ok ⟨{1}, fun _ => ⟨some 1, none, some (.str "hi"), none⟩⟩)
    false "p" (fun _ => "") [⟨1, "t", none, none, none⟩]
    [⟨1, "t", JsonVal.str "hi", none, none, none⟩]
    (by
      simp +decide [translate_lines, retry_translation, retryTranslationGo, ask_gpt,
        exceptHandler, exceptHandlerAux, askGptOnce, valid_translate_result,
        normalizeDirects, buildResultDirect, buildDirectGo, Finset.sort_singleton,
        pyStrip, stripChars, replaceNewlineSpace, isStrVal, getSubKey, strValOr])).1

/-- A response passing `valid_translate_result` for id set `{1}`. -/
def c7RespGood : RespDict :=
  ⟨{1}, fun _ => ⟨some 1, none, some (.str "hi"), none⟩⟩

/-- A response failing `valid_translate_result` (empty id set). -/
def c7RespBad : RespDict := ⟨∅, fun _ => ⟨none, none, none, none⟩⟩

/-- An oracle that answers the whitespace-perturbed prompt `"P" + " "` with a
valid response and every other prompt (in particular the unperturbed `"P"`)
with an invalid one. -/
def c7Oracle : String → Except PyErr RespDict :=
  fun p => if p = "P" ++ spaces 1 then .ok c7RespGood else .ok c7RespBad

/-- C7, counterexample: `retry_translation` does not retry a failed validation
with a whitespace-perturbed prompt. Against `c7Oracle`, the claimed behaviour
would succeed on the second attempt (the perturbed prompt validates), but the
code raises the `ValueError` from inside `ask_gpt` on the first attempt — the
exception propagates out of the retry loop, whose body has no handler — so the
chunk fails without the perturbed prompt ever being issued. -/
theorem c7_counterexample :
    retry_translation c7Oracle "P"
        (fun r => valid_translate_result r {1} [.direct]) 1
      = .error .apiResponseError
      ∧ askGptOnce c7Oracle ("P" ++ spaces 1)
          (fun r => valid_translate_result r {1} [.direct])
        = .ok c7RespGood
      ∧ ∀ r : RespDict,
          (Except.error PyErr.apiResponseError : Except PyErr RespDict) ≠ .ok r := by
  refine ⟨?_, ?_, fun r h => by cases h⟩
  · simp +decide [retry_translation, retryTranslationGo, ask_gpt, exceptHandler,
      exceptHandlerAux, askGptOnce, c7Oracle, c7RespBad, valid_translate_result, spaces]
  · simp +decide [askGptOnce, c7Oracle, c7RespGood, valid_translate_result, getSubKey]

/-- C7 (amended): each per-chunk pass validates the LLM response by exact
id-set equality, per-item id match, and presence of the required sub-keys,
inside `ask_gpt`, which with a deterministic oracle behaves as its single
attempt (its `except_handler` re-issues the same prompt up to 5 more times and
re-raises). A validation failure (or any request error) on the first attempt
propagates out of `retry_translation` unchanged — no whitespace-perturbation
retry happens. The 3-attempt loop with perturbed prompts `prompt + retry * " "`
applies only to responses that validate but whose entry count differs from the
chunk's line count, and after three such attempts it raises the terminal
per-chunk `ValueError`. -/
theorem c7_retry_behavior :
    (∀ (llm : String → Except PyErr RespDict) (prompt : String) (v : RespDict → Bool),
        ask_gpt llm prompt v = askGptOnce llm prompt v)
      ∧ (∀ (llm : String → Except PyErr RespDict) (prompt : String) (v : RespDict → Bool)
          (n : Nat) (e : PyErr),
          askGptOnce llm (prompt ++ spaces 0) v = .error e →
          retry_translation llm prompt v n = .error e)
      ∧ (∀ (llm : String → Except PyErr RespDict) (prompt : String) (v : RespDict → Bool)
          (n : Nat),
          (∀ i < 3, ∃ r, askGptOnce llm (prompt ++ spaces i) v = .ok r
              ∧ r.keys.card ≠ n) →
          retry_translation llm prompt v n = .error .after3Retries) := by
  refine ⟨fun llm prompt v => ask_gpt_eq_once llm prompt v, ?_, ?_⟩
  · intro llm prompt v n e h
    rw [retry_translation, retryTranslationGo, ask_gpt_eq_once, h]
  · intro llm prompt v n h
    obtain ⟨r0, h0, hc0⟩ := h 0 (by omega)
    obtain ⟨r1, h1, hc1⟩ := h 1 (by omega)
    obtain ⟨r2, h2, hc2⟩ := h 2 (by omega)
    rw [retry_translation]
    rw [retryTranslationGo, ask_gpt_eq_once, h0]
    simp only [if_neg hc0]
    rw [retryTranslationGo, ask_gpt_eq_once, h1]
    simp only [if_neg hc1]
    rw [retryTranslationGo, ask_gpt_eq_once, h2]
    simp only [if_neg hc2]
    rfl

/-- C7 witness: an oracle whose validated responses always have the wrong entry
count exhausts the three perturbed attempts and raises the terminal error. -/
theorem c7_retry_behavior_witness :
    retry_translation (fun _ => .ok c7RespBad) "P" (fun _ => true) 1
      = .error .after3Retries :=
  c7_retry_behavior.2.2 (fun _ => .ok c7RespBad) "P" (fun _ => true) 1
    (fun i _ => ⟨c7RespBad, rfl, by decide⟩)
